import Mathlib

/-!
# Verification of the ProstaSeg review module

Shallow embedding of `src/ProstaSeg/ProstaSeg.py` (class `ProstaSegWidget`).
The module walks a root directory of per-patient case folders, navigates
through the cases, bootstraps a segmentation for each case, and appends an
annotation row to a shared CSV on save.

Modelling conventions:
* File-system paths that matter to the code are always `<case folder>/<file>`,
  modelled by `CasePath` (`.parentName` is the Python `path.parent.name`).
* The annotation CSV file is `Option (List CSVLine)`: `none` means the file
  does not exist, `CSVLine.header` is the `patientID,comment` header line.
* Python `str.lower` is modelled for the ASCII range by `strLower`
  (segment and file names in scope are ASCII).
* `in` substring tests are `strContains`.
* Host scene nodes are modelled by the data the code reads back from them:
  a volume node by the path it was loaded from, a segmentation node by its
  list of segment names plus a per-segment-id visibility map on its display
  node.  Fallible host calls (`loadVolume(None)`, indexing past the case
  list) are modelled with `Except`.
-/

namespace ProstaSeg

/-- Python `str.lower` restricted to ASCII, per character. -/
def strLower (s : String) : String := ⟨s.data.map Char.toLower⟩

/-- Does `needle` occur as a contiguous run inside the character list? -/
def charsContain (needle : List Char) : List Char → Bool
  | [] => needle.isEmpty
  | c :: rest => needle.isPrefixOf (c :: rest) || charsContain needle rest

/-- Python substring test `needle in hay`. -/
def strContains (hay needle : String) : Bool :=
  charsContain needle.toList hay.toList

/-- A path `<case folder>/<file name>` under the selected root directory;
`parentName` is the case folder's name, i.e. Python `path.parent.name`. -/
structure CasePath where
  parentName : String
  fileName : String
deriving DecidableEq, Repr

/-- One physical line of `ProstaSeg_annotations.csv`. -/
inductive CSVLine where
  /-- the `patientID,comment` header line -/
  | header
  /-- one data row -/
  | row (patientID comment : String)
deriving DecidableEq, Repr

/-- The patientID column of a CSV file: values of the data rows, in order
(what `pd.read_csv(...)["patientID"].values` yields). -/
def patientIDs (lines : List CSVLine) : List String :=
  lines.filterMap fun l =>
    match l with
    | .header => none
    | .row pid _ => some pid

/-- The data rows of a CSV file, in order. -/
def dataRows (lines : List CSVLine) : List (String × String) :=
  lines.filterMap fun l =>
    match l with
    | .header => none
    | .row pid comment => some (pid, comment)

/-- Number of header lines in a CSV file. -/
def headerCount (lines : List CSVLine) : Nat :=
  (lines.filter fun l =>
    match l with
    | .header => true
    | .row _ _ => false).length

/-- Model of `ProstaSegWidget.append_to_csv`: `df.to_csv(file_path, mode='a',
index=False, header=not file_exists)` — append one data row, preceded by the
header line exactly when the file did not exist. -/
def append_to_csv (file : Option (List CSVLine)) (patientID comment : String) :
    List CSVLine :=
  match file with
  | none => [.header, .row patientID comment]
  | some lines => lines ++ [.row patientID comment]

/-- Model of `annotated_files` in `onAtlasDirectoryChanged`: the patientID column of
the existing annotation table, or empty when the file does not exist. -/
def annotatedFiles (csv : Option (List CSVLine)) : List String :=
  match csv with
  | none => []
  | some lines => patientIDs lines

/-- An entry of a directory listing (`Path.iterdir`). -/
inductive FSEntry where
  | file (name : String)
  | dir (name : String) (entries : List FSEntry)

/-- The immediate subdirectories of a directory listing, with their own
listings (`if folder.is_dir()` in the discovery loop). -/
def rootDirs : List FSEntry → List (String × List FSEntry)
  | [] => []
  | .file _ :: rest => rootDirs rest
  | .dir n es :: rest => (n, es) :: rootDirs rest

/-- The inner loop of `onAtlasDirectoryChanged` over `folder.iterdir()`:
entries that are not files are skipped; a file whose name contains `"image"`
(case-sensitively) becomes the image file; otherwise (`elif`) a file whose
lowercased name contains `"segmentation"` becomes the segmentation file.
Later hits overwrite earlier ones. -/
def scanCaseFolder (caseName : String) :
    List FSEntry → Option CasePath → Option CasePath →
    Option CasePath × Option CasePath
  | [], img, seg => (img, seg)
  | .dir _ _ :: rest, img, seg => scanCaseFolder caseName rest img seg
  | .file fname :: rest, img, seg =>
    if strContains fname "image" then
      scanCaseFolder caseName rest (some ⟨caseName, fname⟩) seg
    else if strContains (strLower fname) "segmentation" then
      scanCaseFolder caseName rest img (some ⟨caseName, fname⟩)
    else
      scanCaseFolder caseName rest img seg

/-- The outer loop of `onAtlasDirectoryChanged` over `Path(directory).iterdir()`:
for each immediate subdirectory whose name is not in `annotated`, scan the
folder and append one case (`n_files += 1`, one entry appended to
`image_files` and to `segmentation_files`). -/
def discoverLoop (annotated : List String) :
    List FSEntry → Int × List (Option CasePath) × List (Option CasePath) →
    Int × List (Option CasePath) × List (Option CasePath)
  | [], acc => acc
  | .file _ :: rest, acc => discoverLoop annotated rest acc
  | .dir name entries :: rest, (n, imgs, segs) =>
    if annotated.contains name then
      discoverLoop annotated rest (n, imgs, segs)
    else
      let scanned := scanCaseFolder name entries none none
      discoverLoop annotated rest (n + 1, imgs ++ [scanned.1], segs ++ [scanned.2])

/-- A segmentation node as the code observes it: its ordered segment names
(segment ids are positions in this list) plus the display node's
per-segment-id visibility map.  A freshly created display node shows every
segment, so visibility defaults to `true`. -/
structure SegNode where
  names : List String
  vis : Nat → Bool

/-- Is a segment name kept visible by the bootstrap loop, i.e. does its
Python `.lower()` equal `"fascia"` or `"prostate"`? -/
def isKept (name : String) : Bool :=
  strLower name == "fascia" || strLower name == "prostate"

/-- Accumulator of the `for seg_id in seg.GetSegmentIDs()` loop in
`load_files`: visibility map so far, `segment_id_fascia`, `segment_id_prostate`. -/
structure ScanAcc where
  vis : Nat → Bool
  fid : Option Nat
  pid : Option Nat

/-- The `for seg_id in seg.GetSegmentIDs()` loop of `load_files`, over
(segment id, segment name) pairs: a name lowering to `"fascia"` records the
fascia id, `elif` `"prostate"` records the prostate id, `else` the segment
is hidden (`SetSegmentVisibility(seg_id, False)`). -/
def segLoop : List (Nat × String) → ScanAcc → ScanAcc
  | [], acc => acc
  | (i, name) :: rest, acc =>
    if strLower name = "fascia" then
      segLoop rest { acc with fid := some i }
    else if strLower name = "prostate" then
      segLoop rest { acc with pid := some i }
    else
      segLoop rest { acc with vis := fun j => if j = i then false else acc.vis j }

/-- Bootstrap of an existing segmentation file in `load_files`: run the
segment loop over the loaded segment names, then create an empty `Fascia`
segment (`seg.AddEmptySegment("Fascia")` followed by `SetName("Fascia")`)
exactly when no fascia id was found.  Returns the node, the fascia id
and the prostate id. -/
def bootstrapExisting (loaded : List String) :
    SegNode × Option Nat × Option Nat :=
  let acc := segLoop loaded.enum ⟨fun _ => true, none, none⟩
  match acc.fid with
  | some f => (⟨loaded, acc.vis⟩, some f, acc.pid)
  | none => (⟨loaded ++ ["Fascia"], acc.vis⟩, some loaded.length, acc.pid)

/-- The `for label in ["Prostate", "Fascia"]` loop of `load_files` for a
case without a segmentation file: each iteration appends one empty segment
(`AddEmptySegment(label)` then `SetName(label)`), recording the id when the
label is `"Prostate"`. -/
def freshLoop : List String → SegNode → Option Nat → SegNode × Option Nat
  | [], node, pid => (node, pid)
  | label :: rest, node, pid =>
    let segment_id := node.names.length
    let pid := if label = "Prostate" then some segment_id else pid
    freshLoop rest { node with names := node.names ++ [label] } pid

/-- Bootstrap for a case with no segmentation file: a new segmentation node
with segments `"Prostate"` then `"Fascia"`; returns the node and the
prostate id. -/
def bootstrapFresh : SegNode × Option Nat :=
  freshLoop ["Prostate", "Fascia"] ⟨[], fun _ => true⟩ none

/-- The mutable fields of `ProstaSegWidget` the claims observe, plus the
scene-membership of the two bound nodes (a removed node keeps its binding in
the Python fields but is no longer in the scene). -/
structure WidgetState where
  n_files : Int
  current_index : Int
  image_files : List (Option CasePath)
  segmentation_files : List (Option CasePath)
  /-- path the bound volume node was loaded from; `none` = no node bound -/
  volume_node : Option CasePath
  volume_in_scene : Bool
  segmentation_node : Option SegNode
  seg_in_scene : Bool
  var_check : String
  var_ID : String
  var_comment : String
  /-- was `infoDisplay` about a missing Prostate segment raised on the last load -/
  prostate_warning : Bool

/-- Initial `ProstaSegWidget.__init__` field values (UI text fields start empty). -/
def initState : WidgetState where
  n_files := 0
  current_index := 0
  image_files := []
  segmentation_files := []
  volume_node := none
  volume_in_scene := false
  segmentation_node := none
  seg_in_scene := false
  var_check := ""
  var_ID := ""
  var_comment := ""
  prostate_warning := false

/-- Failures raised by host calls inside `load_files`. -/
inductive LoadErr where
  /-- Failure of `slicer.util.loadVolume(None)`: the recorded image path is absent -/
  | noImagePath
  /-- Indexing `self.image_files[self.current_index]` out of range -/
  | indexError
deriving DecidableEq, Repr

/-- Model of `ProstaSegWidget.resetUIElements`: clear the comment box. -/
def resetUIElements (s : WidgetState) : WidgetState :=
  { s with var_comment := "" }

/-- The node-removal preamble shared by `onAtlasDirectoryChanged`, `goNext`
and `goPrevious`: remove each bound node that is still present in the scene
(`if self.volume_node and slicer.mrmlScene.IsNodePresent(...): RemoveNode`).
Each guarded removal touches only its own node's scene membership. -/
def removeCurrentNodes (s : WidgetState) : WidgetState :=
  { s with
    volume_in_scene :=
      if s.volume_node.isSome && s.volume_in_scene then false
      else s.volume_in_scene
    seg_in_scene :=
      if s.segmentation_node.isSome && s.seg_in_scene then false
      else s.seg_in_scene }

/-- Model of `ProstaSegWidget.load_files`.  `env` gives the segment names stored in a
segmentation file (the host's `loadSegmentation`).  Loads the current image
(failing like `loadVolume(None)` when the recorded path is absent), then
either bootstraps the loaded segmentation or creates the fresh two-segment
node, updates the status labels, and records whether the missing-Prostate
advisory `infoDisplay` fired. -/
def load_files (env : CasePath → List String) (s : WidgetState) :
    Except LoadErr WidgetState :=
  match s.image_files[s.current_index.toNat]? with
  | none => .error .indexError
  | some none => .error .noImagePath
  | some (some fp) =>
    match s.segmentation_files[s.current_index.toNat]? with
    | none => .error .indexError
    | some seg_path =>
      let loaded :=
        match seg_path with
        | some sp =>
          let r := bootstrapExisting (env sp)
          (r.1, r.2.2)
        | none => bootstrapFresh
      .ok { s with
            volume_node := some fp
            volume_in_scene := true
            segmentation_node := some loaded.1
            seg_in_scene := true
            var_check := toString s.current_index ++ " / " ++ toString s.n_files
            var_ID := fp.parentName
            prostate_warning := loaded.2.isNone }

/-- Model of `ProstaSegWidget.goNext`: remove the bound nodes, then either advance the
cursor and load, or display the terminal "all checked" state. -/
def goNext (env : CasePath → List String) (s : WidgetState) :
    Except LoadErr WidgetState :=
  let s := removeCurrentNodes s
  if s.current_index < s.n_files - 1 then
    match load_files env { s with current_index := s.current_index + 1 } with
    | .error e => .error e
    | .ok s' => .ok (resetUIElements s')
  else
    .ok { s with var_check := "All files are checked!", var_ID := "" }

/-- Model of `ProstaSegWidget.goPrevious`: guarded at the first case, where nothing at
all happens (only a console print). -/
def goPrevious (env : CasePath → List String) (s : WidgetState) :
    Except LoadErr WidgetState :=
  if s.current_index > 0 then
    let s := removeCurrentNodes s
    match load_files env { s with current_index := s.current_index - 1 } with
    | .error e => .error e
    | .ok s' => .ok (resetUIElements s')
  else
    .ok s

/-- Model of `ProstaSegWidget.onAtlasDirectoryChanged`: remove bound nodes, rebuild
the case list from the directory listing `root` and the annotation table
`csv` on disk, reset the UI, then load the first case or display the
terminal state. -/
def onAtlasDirectoryChanged (env : CasePath → List String)
    (root : List FSEntry) (csv : Option (List CSVLine)) (s : WidgetState) :
    Except LoadErr WidgetState :=
  let s := removeCurrentNodes s
  let annotated := annotatedFiles csv
  let d := discoverLoop annotated root (0, [], [])
  let s := { s with
             n_files := d.1
             current_index := 0
             image_files := d.2.1
             segmentation_files := d.2.2 }
  let s := resetUIElements s
  if d.1 ≠ 0 then
    load_files env s
  else
    .ok { s with var_check := "All files are checked!", var_ID := "" }

/-- Write a segmentation file (`slicer.util.saveNode`) into a flat store of
`<case folder>/<file>` paths: overwrite in place when the path already holds
a file, otherwise add a new file. -/
def writeSegFile (store : List (CasePath × List String)) (p : CasePath)
    (content : List String) : List (CasePath × List String) :=
  match store with
  | [] => [(p, content)]
  | (q, c) :: rest =>
    if q = p then (p, content) :: rest
    else (q, c) :: writeSegFile rest p content

/-- Look a path up in the segmentation-file store. -/
def readSegFile (store : List (CasePath × List String)) (p : CasePath) :
    Option (List String) :=
  match store with
  | [] => none
  | (q, c) :: rest => if q = p then some c else readSegFile rest p

/-- The paths holding a file, in store order. -/
def segFilePaths (store : List (CasePath × List String)) : List CasePath :=
  store.map Prod.fst

/-- Widget state together with the on-disk artefacts of the selected root:
the annotation CSV and the saved segmentation files. -/
structure World where
  ws : WidgetState
  csvFile : Option (List CSVLine)
  segStore : List (CasePath × List String)

/-- Side effects of `onSaveNextClicked`, in execution order. -/
inductive Effect where
  | saveSeg (path : CasePath)
  | appendCsv (patientID comment : String)
  | advance
deriving DecidableEq, Repr

/-- Failures on the save path. -/
inductive SaveErr where
  /-- Indexing `self.image_files[self.current_index]` out of range -/
  | indexError
  /-- the recorded image path is `None`, so `.parent` raises -/
  | noImage
  /-- Failure of `saveNode(None, ...)`: no segmentation node is bound -/
  | noSegNode
  /-- the subsequent `goNext` load failed -/
  | loadErr (e : LoadErr)
deriving DecidableEq, Repr

/-- Model of `ProstaSegWidget.onSaveNextClicked`: compute
`seg_file_path = image_files[current_index].parent / "segmentation.seg.nrrd"`,
save the bound segmentation node there, append the
`(seg_file_path.parent.name, var_comment)` row to the annotation CSV, then
`goNext`.  On success also returns the side effects in execution order. -/
def onSaveNextClicked (env : CasePath → List String) (w : World) :
    Except SaveErr (World × List Effect) :=
  match w.ws.image_files[w.ws.current_index.toNat]? with
  | none => .error .indexError
  | some none => .error .noImage
  | some (some img) =>
    let seg_file_path : CasePath := ⟨img.parentName, "segmentation.seg.nrrd"⟩
    match w.ws.segmentation_node with
    | none => .error .noSegNode
    | some node =>
      let store := writeSegFile w.segStore seg_file_path node.names
      let patientID := seg_file_path.parentName
      let comment := w.ws.var_comment
      let csv := append_to_csv w.csvFile patientID comment
      match goNext env w.ws with
      | .error e => .error (.loadErr e)
      | .ok ws' =>
        .ok (⟨ws', some csv, store⟩,
             [.saveSeg seg_file_path, .appendCsv patientID comment, .advance])

/-- One operator action on the world: selecting a directory (with an
arbitrary listing and on-disk annotation table), save-and-next, or the two
navigation buttons.  Only completed (non-raising) actions produce a step. -/
inductive Step (env : CasePath → List String) : World → World → Prop
  | discover (root : List FSEntry) (csv : Option (List CSVLine)) (w : World)
      (ws' : WidgetState) (h : onAtlasDirectoryChanged env root csv w.ws = .ok ws') :
      Step env w { w with ws := ws', csvFile := csv }
  | next (w : World) (ws' : WidgetState) (h : goNext env w.ws = .ok ws') :
      Step env w { w with ws := ws' }
  | previous (w : World) (ws' : WidgetState) (h : goPrevious env w.ws = .ok ws') :
      Step env w { w with ws := ws' }
  | save (w w' : World) (effs : List Effect)
      (h : onSaveNextClicked env w = .ok (w', effs)) :
      Step env w w'

/-- Worlds reachable from module start-up (any pre-existing files on disk)
by operator actions. -/
inductive Reachable (env : CasePath → List String) : World → Prop
  | init (csv : Option (List CSVLine)) (store : List (CasePath × List String)) :
      Reachable env ⟨initState, csv, store⟩
  | step {w w' : World} : Reachable env w → Step env w w' → Reachable env w'

/-! ## Basic lemmas about the embedded operations -/

theorem dataRows_append (l1 l2 : List CSVLine) :
    dataRows (l1 ++ l2) = dataRows l1 ++ dataRows l2 := by
  simp [dataRows]

theorem headerCount_append (l1 l2 : List CSVLine) :
    headerCount (l1 ++ l2) = headerCount l1 + headerCount l2 := by
  simp [headerCount]

theorem removeCurrentNodes_current_index (s : WidgetState) :
    (removeCurrentNodes s).current_index = s.current_index := rfl

theorem removeCurrentNodes_n_files (s : WidgetState) :
    (removeCurrentNodes s).n_files = s.n_files := rfl

theorem removeCurrentNodes_image_files (s : WidgetState) :
    (removeCurrentNodes s).image_files = s.image_files := rfl

theorem removeCurrentNodes_segmentation_files (s : WidgetState) :
    (removeCurrentNodes s).segmentation_files = s.segmentation_files := rfl

theorem removeCurrentNodes_volume_node (s : WidgetState) :
    (removeCurrentNodes s).volume_node = s.volume_node := rfl

theorem removeCurrentNodes_segmentation_node (s : WidgetState) :
    (removeCurrentNodes s).segmentation_node = s.segmentation_node := rfl

/-- What a successful `load_files` guarantees: the case bookkeeping fields are
untouched, the volume node is bound to the image path recorded for the
current case, and the patient-identifier label shows that case's folder. -/
theorem load_files_ok (env : CasePath → List String) (s s' : WidgetState)
    (h : load_files env s = .ok s') :
    s'.current_index = s.current_index ∧ s'.n_files = s.n_files ∧
    s'.image_files = s.image_files ∧
    s'.segmentation_files = s.segmentation_files ∧
    ∃ fp, s.image_files[s.current_index.toNat]? = some (some fp) ∧
      s'.volume_node = some fp ∧ s'.var_ID = fp.parentName := by
  simp only [load_files] at h
  split at h
  · exact absurd h (by simp)
  · exact absurd h (by simp)
  · next fp heq =>
    split at h
    · exact absurd h (by simp)
    · next seg_path hseg =>
      rw [Except.ok.injEq] at h
      subst h
      exact ⟨rfl, rfl, rfl, rfl, _, heq, rfl, rfl⟩

theorem resetUIElements_current_index (s : WidgetState) :
    (resetUIElements s).current_index = s.current_index := rfl

theorem resetUIElements_n_files (s : WidgetState) :
    (resetUIElements s).n_files = s.n_files := rfl

/-- Case analysis of a successful `goNext`: the case count is preserved and
the cursor either advances by one (strictly before the last case) or is left
where it was (at or beyond the last case). -/
theorem goNext_ok_cases (env : CasePath → List String) (s s' : WidgetState)
    (h : goNext env s = .ok s') :
    s'.n_files = s.n_files ∧
    ((s.current_index < s.n_files - 1 ∧ s'.current_index = s.current_index + 1) ∨
     (¬ s.current_index < s.n_files - 1 ∧ s'.current_index = s.current_index)) := by
  simp only [goNext] at h
  split at h
  · next hlt =>
    split at h
    · exact absurd h (by simp)
    · next s'' hload =>
      rw [Except.ok.injEq] at h
      subst h
      obtain ⟨hidx, hn, -⟩ := load_files_ok _ _ _ hload
      refine ⟨by simpa [resetUIElements_n_files] using hn, .inl ⟨hlt, ?_⟩⟩
      simpa [resetUIElements_current_index] using hidx
  · next hge =>
    rw [Except.ok.injEq] at h
    subst h
    exact ⟨rfl, .inr ⟨hge, rfl⟩⟩

/-- Case analysis of a successful `goPrevious`: the case count is preserved
and the cursor either retreats by one (when not at the first case) or is left
where it was (at the first case). -/
theorem goPrevious_ok_cases (env : CasePath → List String) (s s' : WidgetState)
    (h : goPrevious env s = .ok s') :
    s'.n_files = s.n_files ∧
    ((0 < s.current_index ∧ s'.current_index = s.current_index - 1) ∨
     (¬ 0 < s.current_index ∧ s'.current_index = s.current_index)) := by
  simp only [goPrevious] at h
  split at h
  · next hlt =>
    split at h
    · exact absurd h (by simp)
    · next s'' hload =>
      rw [Except.ok.injEq] at h
      subst h
      obtain ⟨hidx, hn, -⟩ := load_files_ok _ _ _ hload
      refine ⟨by simpa [resetUIElements_n_files] using hn, .inl ⟨hlt, ?_⟩⟩
      simpa [resetUIElements_current_index] using hidx
  · next hge =>
    rw [Except.ok.injEq] at h
    subst h
    exact ⟨rfl, .inr ⟨hge, rfl⟩⟩

/-- The subdirectories discovery keeps: immediate subdirectories of the root
whose folder name is not among the annotated patient IDs. -/
def keptDirs (annotated : List String) (root : List FSEntry) :
    List (String × List FSEntry) :=
  (rootDirs root).filter fun p => !(annotated.contains p.1)

/-- Closed form of the discovery loop: it appends, in listing order, exactly
one case per kept subdirectory, whose image and segmentation entries come
from scanning that subdirectory. -/
theorem discoverLoop_eq (annotated : List String) (root : List FSEntry) :
    ∀ n imgs segs,
      discoverLoop annotated root (n, imgs, segs) =
        (n + (keptDirs annotated root).length,
         imgs ++ (keptDirs annotated root).map
           (fun p => (scanCaseFolder p.1 p.2 none none).1),
         segs ++ (keptDirs annotated root).map
           (fun p => (scanCaseFolder p.1 p.2 none none).2)) := by
  induction root with
  | nil => intro n imgs segs; simp [discoverLoop, keptDirs, rootDirs]
  | cons e rest ih =>
    intro n imgs segs
    cases e with
    | file name =>
      rw [show discoverLoop annotated (FSEntry.file name :: rest) (n, imgs, segs) =
            discoverLoop annotated rest (n, imgs, segs) from rfl,
          ih n imgs segs]
      rfl
    | dir name entries =>
      simp only [discoverLoop]
      by_cases hc : annotated.contains name = true
      · rw [if_pos hc, ih n imgs segs]
        simp only [keptDirs, rootDirs, List.filter_cons, hc, Bool.not_true,
          Bool.false_eq_true, if_false]
      · rw [if_neg hc, ih]
        rw [Bool.not_eq_true] at hc
        simp only [keptDirs, rootDirs, List.filter_cons, hc, Bool.not_false,
          if_true, List.length_cons, List.map_cons, Prod.mk.injEq]
        refine ⟨by push_cast; ring, by simp, by simp⟩

theorem discoverLoop_fst_nonneg (annotated : List String) (root : List FSEntry) :
    0 ≤ (discoverLoop annotated root (0, [], [])).1 := by
  rw [discoverLoop_eq]
  positivity

/-- A successful directory change leaves the cursor at zero and the case
count at the (non-negative) number of discovered cases. -/
theorem onAtlasDirectoryChanged_ok (env : CasePath → List String)
    (root : List FSEntry) (csv : Option (List CSVLine)) (s s' : WidgetState)
    (h : onAtlasDirectoryChanged env root csv s = .ok s') :
    s'.current_index = 0 ∧
    s'.n_files = (discoverLoop (annotatedFiles csv) root (0, [], [])).1 ∧
    0 ≤ s'.n_files := by
  simp only [onAtlasDirectoryChanged] at h
  split at h
  · obtain ⟨hidx, hn, -⟩ := load_files_ok _ _ _ h
    refine ⟨by simpa using hidx, by simpa using hn, ?_⟩
    rw [show s'.n_files = (discoverLoop (annotatedFiles csv) root (0, [], [])).1
          by simpa using hn]
    exact discoverLoop_fst_nonneg _ _
  · rw [Except.ok.injEq] at h
    subst h
    exact ⟨rfl, rfl, discoverLoop_fst_nonneg _ _⟩

/-- The segment loop never shows a hidden segment: the final visibility of
segment id `i` is its incoming visibility, cleared exactly when some
processed pair carries id `i` and a name that is neither fascia nor
prostate case-insensitively. -/
theorem segLoop_vis (pairs : List (Nat × String)) :
    ∀ (acc : ScanAcc) (i : Nat),
      (segLoop pairs acc).vis i =
        (acc.vis i && !(pairs.any fun p => p.1 == i && !(isKept p.2))) := by
  induction pairs with
  | nil => intro acc i; simp [segLoop]
  | cons hd tl ih =>
    intro acc i
    obtain ⟨j, name⟩ := hd
    simp only [segLoop]
    by_cases h1 : strLower name = "fascia"
    · rw [if_pos h1, ih]
      simp [isKept, h1, List.any_cons]
    · rw [if_neg h1]
      by_cases h2 : strLower name = "prostate"
      · rw [if_pos h2, ih]
        simp [isKept, h2, List.any_cons]
      · rw [if_neg h2, ih]
        have hk : isKept name = false := by
          simp [isKept, h1, h2]
        by_cases hij : j = i
        · subst hij
          simp [List.any_cons, hk]
        · simp only [List.any_cons, hk, Bool.not_false, Bool.and_true]
          have : (j == i) = false := by simp [hij]
          simp [this, Ne.symm hij]

/-- Once a fascia id has been recorded, the loop keeps some fascia id. -/
theorem segLoop_fid_isSome (pairs : List (Nat × String)) :
    ∀ (acc : ScanAcc), acc.fid.isSome → ((segLoop pairs acc).fid).isSome := by
  induction pairs with
  | nil => intro acc h; simpa [segLoop] using h
  | cons hd tl ih =>
    intro acc h
    obtain ⟨j, name⟩ := hd
    simp only [segLoop]
    by_cases h1 : strLower name = "fascia"
    · rw [if_pos h1]; exact ih _ (by simp)
    · rw [if_neg h1]
      by_cases h2 : strLower name = "prostate"
      · rw [if_pos h2]; exact ih _ h
      · rw [if_neg h2]; exact ih _ h

/-- Once a prostate id has been recorded, the loop keeps some prostate id. -/
theorem segLoop_pid_isSome (pairs : List (Nat × String)) :
    ∀ (acc : ScanAcc), acc.pid.isSome → ((segLoop pairs acc).pid).isSome := by
  induction pairs with
  | nil => intro acc h; simpa [segLoop] using h
  | cons hd tl ih =>
    intro acc h
    obtain ⟨j, name⟩ := hd
    simp only [segLoop]
    by_cases h1 : strLower name = "fascia"
    · rw [if_pos h1]; exact ih _ h
    · rw [if_neg h1]
      by_cases h2 : strLower name = "prostate"
      · rw [if_pos h2]; exact ih _ (by simp)
      · rw [if_neg h2]; exact ih _ h

/-- The loop ends without a fascia id exactly when it started without one and
no processed name lowers to `fascia`. -/
theorem segLoop_fid_none_iff (pairs : List (Nat × String)) :
    ∀ (acc : ScanAcc),
      (segLoop pairs acc).fid = none ↔
        acc.fid = none ∧ ∀ p ∈ pairs, strLower p.2 ≠ "fascia" := by
  induction pairs with
  | nil => intro acc; simp [segLoop]
  | cons hd tl ih =>
    intro acc
    obtain ⟨j, name⟩ := hd
    simp only [segLoop]
    by_cases h1 : strLower name = "fascia"
    · rw [if_pos h1]
      constructor
      · intro h
        have := segLoop_fid_isSome tl { acc with fid := some j } (by simp)
        rw [h] at this
        simp at this
      · rintro ⟨-, hall⟩
        exact absurd h1 (hall (j, name) (by simp))
    · rw [if_neg h1]
      by_cases h2 : strLower name = "prostate"
      · rw [if_pos h2, ih]
        simp only [List.mem_cons, forall_eq_or_imp]
        tauto
      · rw [if_neg h2, ih]
        simp only [List.mem_cons, forall_eq_or_imp]
        tauto

/-- The loop ends without a prostate id exactly when it started without one
and no processed name lowers to `prostate`. -/
theorem segLoop_pid_none_iff (pairs : List (Nat × String)) :
    ∀ (acc : ScanAcc),
      (segLoop pairs acc).pid = none ↔
        acc.pid = none ∧ ∀ p ∈ pairs, strLower p.2 ≠ "prostate" := by
  induction pairs with
  | nil => intro acc; simp [segLoop]
  | cons hd tl ih =>
    intro acc
    obtain ⟨j, name⟩ := hd
    simp only [segLoop]
    by_cases h1 : strLower name = "fascia"
    · rw [if_pos h1, ih]
      simp only [List.mem_cons, forall_eq_or_imp]
      have : strLower name ≠ "prostate" := by rw [h1]; decide
      tauto
    · rw [if_neg h1]
      by_cases h2 : strLower name = "prostate"
      · rw [if_pos h2]
        constructor
        · intro h
          have := segLoop_pid_isSome tl { acc with pid := some j } (by simp)
          rw [h] at this
          simp at this
        · rintro ⟨-, hall⟩
          exact absurd h2 (hall (j, name) (by simp))
      · rw [if_neg h2, ih]
        simp only [List.mem_cons, forall_eq_or_imp]
        tauto

/-- Reading back the path just written yields the new content. -/
theorem readSegFile_write_same (store : List (CasePath × List String))
    (p : CasePath) (content : List String) :
    readSegFile (writeSegFile store p content) p = some content := by
  induction store with
  | nil => simp [writeSegFile, readSegFile]
  | cons hd tl ih =>
    obtain ⟨q, c⟩ := hd
    by_cases h : q = p
    · simp [writeSegFile, readSegFile, h]
    · simp [writeSegFile, readSegFile, h, ih]

/-- Writing one path leaves every other path's content unchanged. -/
theorem readSegFile_write_other (store : List (CasePath × List String))
    (p q : CasePath) (content : List String) (h : q ≠ p) :
    readSegFile (writeSegFile store p content) q = readSegFile store q := by
  induction store with
  | nil => simp [writeSegFile, readSegFile, Ne.symm h]
  | cons hd tl ih =>
    obtain ⟨r, c⟩ := hd
    by_cases hr : r = p
    · subst hr
      simp [writeSegFile, readSegFile, Ne.symm h]
    · by_cases hq : r = q
      · subst hq
        simp [writeSegFile, readSegFile, hr]
      · simp [writeSegFile, readSegFile, hr, hq, ih]

/-- Writing adds the path to the store exactly when it was not there yet:
a second save to the same path never creates a second file. -/
theorem segFilePaths_write (store : List (CasePath × List String))
    (p : CasePath) (content : List String) :
    segFilePaths (writeSegFile store p content) =
      (if (segFilePaths store).contains p then segFilePaths store
       else segFilePaths store ++ [p]) := by
  induction store with
  | nil => simp [writeSegFile, segFilePaths]
  | cons hd tl ih =>
    obtain ⟨q, c⟩ := hd
    by_cases h : q = p
    · subst h
      simp [writeSegFile, segFilePaths]
    · simp only [writeSegFile, if_neg h, segFilePaths, List.map_cons]
      rw [show segFilePaths (writeSegFile tl p content) =
            List.map Prod.fst (writeSegFile tl p content) from rfl] at ih
      rw [ih]
      have hpq : ¬ p = q := fun hh => h hh.symm
      by_cases hc : p ∈ List.map Prod.fst tl
      · simp [segFilePaths, hc]
      · simp [segFilePaths, hc, hpq]

/-- An `any` over an enumeration that keys on one index evaluates the
predicate at that index's element. -/
theorem any_enum_at (l : List String) (i : Nat) (h : i < l.length)
    (f : String → Bool) :
    (l.enum.any fun p => p.1 == i && f p.2) = f l[i] := by
  by_cases hf : f l[i] = true
  · rw [hf]
    refine List.any_eq_true.2 ?_
    exact List.exists_mem_enum.2 ⟨i, h, by simp [hf]⟩
  · rw [Bool.not_eq_true] at hf
    rw [hf]
    refine List.any_eq_false.2 ?_
    refine List.forall_mem_enum.2 ?_
    intro j hj hcontra
    rw [Bool.and_eq_true, beq_iff_eq] at hcontra
    obtain ⟨rfl, hfj⟩ := hcontra
    rw [hf] at hfj
    cases hfj

/-- A universal statement over the names of an enumeration is one over the
list itself. -/
theorem forall_enum_snd (l : List String) (Q : String → Prop) :
    (∀ p ∈ l.enum, Q p.2) ↔ ∀ n ∈ l, Q n := by
  simp [List.forall_mem_enum, List.forall_mem_iff_getElem]

/-- Components of `bootstrapExisting` in terms of the segment loop. -/
theorem bootstrapExisting_parts (loaded : List String) :
    (bootstrapExisting loaded).1.vis =
      (segLoop loaded.enum ⟨fun _ => true, none, none⟩).vis ∧
    (bootstrapExisting loaded).2.2 =
      (segLoop loaded.enum ⟨fun _ => true, none, none⟩).pid ∧
    ((segLoop loaded.enum ⟨fun _ => true, none, none⟩).fid = none →
       (bootstrapExisting loaded).1.names = loaded ++ ["Fascia"]) ∧
    ((segLoop loaded.enum ⟨fun _ => true, none, none⟩).fid ≠ none →
       (bootstrapExisting loaded).1.names = loaded) := by
  simp only [bootstrapExisting]
  rcases hf : (segLoop loaded.enum ⟨fun _ => true, none, none⟩).fid with _ | f
  · exact ⟨rfl, rfl, fun _ => rfl, fun hne => absurd rfl hne⟩
  · exact ⟨rfl, rfl, fun hh => absurd hh (by simp), fun _ => rfl⟩

/-- C6: Every call to `append_to_csv` appends exactly one `(patientID,
comment)` data row to the annotation CSV; the header line is written if and
only if the file did not yet exist, so a fresh file becomes a header
followed by the one data row and later calls add one row without repeating
the header. -/
theorem C6_append_to_csv_appends_one_row (file : Option (List CSVLine))
    (pid comment : String) :
    dataRows (append_to_csv file pid comment) =
      dataRows (match file with | none => [] | some l => l) ++ [(pid, comment)] ∧
    headerCount (append_to_csv file pid comment) =
      (match file with | none => 1 | some l => headerCount l) ∧
    (file = none →
      append_to_csv file pid comment = [.header, .row pid comment]) := by
  cases file with
  | none => exact ⟨rfl, rfl, fun _ => rfl⟩
  | some l =>
    refine ⟨?_, ?_, by simp⟩
    · simp [append_to_csv, dataRows_append, dataRows]
    · simp [append_to_csv, headerCount_append, headerCount]

/-- Witness for C6 at a fresh annotation file. -/
theorem C6_append_to_csv_appends_one_row_witness :
    append_to_csv none "patient1" "all good" =
      [.header, .row "patient1" "all good"] :=
  (C6_append_to_csv_appends_one_row none "patient1" "all good").2.2 rfl

/-- C5: For a case without a segmentation file, `load_files` succeeds and
binds a fresh segmentation node holding exactly the two empty segments
`"Prostate"` then `"Fascia"`, both visible, and the missing-Prostate
advisory is not raised. -/
theorem C5_fresh_bootstrap_two_segments (env : CasePath → List String)
    (s : WidgetState) (img : CasePath)
    (h1 : s.image_files[s.current_index.toNat]? = some (some img))
    (h2 : s.segmentation_files[s.current_index.toNat]? = some none) :
    ∃ s', load_files env s = .ok s' ∧
      ∃ node, s'.segmentation_node = some node ∧
        node.names = ["Prostate", "Fascia"] ∧
        node.vis 0 = true ∧ node.vis 1 = true ∧
        s'.prostate_warning = false := by
  simp only [load_files, h1, h2]
  exact ⟨_, rfl, _, rfl, rfl, rfl, rfl, rfl⟩

/-- Witness for C5: a one-case root whose folder has an image but no
segmentation file. -/
theorem C5_fresh_bootstrap_two_segments_witness :
    ∃ s', load_files (fun _ => [])
        { initState with
          n_files := 1
          image_files := [some ⟨"case1", "image.nii"⟩]
          segmentation_files := [none] } = .ok s' ∧
      ∃ node, s'.segmentation_node = some node ∧
        node.names = ["Prostate", "Fascia"] ∧
        node.vis 0 = true ∧ node.vis 1 = true ∧
        s'.prostate_warning = false :=
  C5_fresh_bootstrap_two_segments (fun _ => []) _ ⟨"case1", "image.nii"⟩ rfl rfl

/-- C4: For a case whose segmentation file exists, `load_files` succeeds
(the missing-Prostate advisory never aborts the load) and the bound node
satisfies: every loaded segment whose name is not `fascia`/`prostate`
case-insensitively is hidden while matching segments stay visible; an empty
`Fascia` segment (visible) is appended if and only if no loaded name matches
`fascia` case-insensitively; and the advisory fires if and only if no loaded
name matches `prostate` case-insensitively. -/
theorem C4_existing_bootstrap (env : CasePath → List String) (s : WidgetState)
    (img sp : CasePath)
    (h1 : s.image_files[s.current_index.toNat]? = some (some img))
    (h2 : s.segmentation_files[s.current_index.toNat]? = some (some sp)) :
    ∃ s', load_files env s = .ok s' ∧
      ∃ node, s'.segmentation_node = some node ∧
        (∀ i, ∀ h : i < (env sp).length, node.vis i = isKept ((env sp)[i])) ∧
        (∀ i, (env sp).length ≤ i → node.vis i = true) ∧
        ((∀ n ∈ env sp, strLower n ≠ "fascia") →
          node.names = (env sp) ++ ["Fascia"]) ∧
        ((∃ n ∈ env sp, strLower n = "fascia") → node.names = env sp) ∧
        (s'.prostate_warning = true ↔ ∀ n ∈ env sp, strLower n ≠ "prostate") := by
  simp only [load_files, h1, h2]
  refine ⟨_, rfl, _, rfl, ?_, ?_, ?_, ?_, ?_⟩
  · intro i h
    rw [(bootstrapExisting_parts (env sp)).1, segLoop_vis]
    rw [any_enum_at (env sp) i h (fun nm => !(isKept nm))]
    simp
  · intro i h
    rw [(bootstrapExisting_parts (env sp)).1, segLoop_vis]
    have hany : ((env sp).enum.any fun p => p.1 == i && !(isKept p.2)) = false := by
      refine List.any_eq_false.2 (List.forall_mem_enum.2 ?_)
      intro j hj hcontra
      rw [Bool.and_eq_true, beq_iff_eq] at hcontra
      omega
    rw [hany]
    rfl
  · intro hno
    refine (bootstrapExisting_parts (env sp)).2.2.1 ?_
    rw [segLoop_fid_none_iff]
    exact ⟨rfl, (forall_enum_snd _ _).2 hno⟩
  · rintro ⟨n, hn, hlow⟩
    refine (bootstrapExisting_parts (env sp)).2.2.2 ?_
    rw [Ne, segLoop_fid_none_iff]
    rintro ⟨-, hall⟩
    exact (forall_enum_snd (env sp) (fun m => strLower m ≠ "fascia")).1 hall n hn hlow
  · show ((bootstrapExisting (env sp)).2.2).isNone = true ↔
      ∀ n ∈ env sp, strLower n ≠ "prostate"
    rw [(bootstrapExisting_parts (env sp)).2.1]
    rw [Option.isNone_iff_eq_none, segLoop_pid_none_iff]
    simp only [true_and]
    exact forall_enum_snd (env sp) (fun m => strLower m ≠ "prostate")

/-- Witness for C4 at the spec's example regions `Tumor`, `fascia`, `Other`:
the load succeeds, `Tumor` and `Other` are hidden, `fascia` stays visible,
no second Fascia segment is created, and the missing-Prostate advisory
fires. -/
theorem C4_existing_bootstrap_witness :
    ∃ s', load_files (fun _ => ["Tumor", "fascia", "Other"])
        { initState with
          n_files := 1
          image_files := [some ⟨"case1", "image.nii"⟩]
          segmentation_files := [some ⟨"case1", "segmentation.nrrd"⟩] } = .ok s' ∧
      ∃ node, s'.segmentation_node = some node ∧
        node.vis 0 = false ∧ node.vis 1 = true ∧ node.vis 2 = false ∧
        node.names = ["Tumor", "fascia", "Other"] ∧
        s'.prostate_warning = true := by
  obtain ⟨s', hs', node, hnode, hvis, -, -, hnames, hwarn⟩ :=
    C4_existing_bootstrap (fun _ => ["Tumor", "fascia", "Other"])
      { initState with
        n_files := 1
        image_files := [some ⟨"case1", "image.nii"⟩]
        segmentation_files := [some ⟨"case1", "segmentation.nrrd"⟩] }
      ⟨"case1", "image.nii"⟩ ⟨"case1", "segmentation.nrrd"⟩ rfl rfl
  refine ⟨s', hs', node, hnode, ?_, ?_, ?_, ?_, ?_⟩
  · rw [hvis 0 (by decide)]; decide
  · rw [hvis 1 (by decide)]; decide
  · rw [hvis 2 (by decide)]; decide
  · exact hnames ⟨"fascia", by decide, by decide⟩
  · exact hwarn.2 (by decide)

/-- C3: With the cursor in range, `goNext` at the last case leaves the
cursor where it is, shows the "all files are checked" status, clears the
patient-identifier label, and binds no new nodes; at any earlier case a
completed `goNext` advances the cursor by exactly one and loads that case's
image. -/
theorem C3_advance_cases (env : CasePath → List String) (s : WidgetState)
    (h0 : 0 ≤ s.current_index) (h1 : s.current_index < s.n_files) :
    (s.current_index = s.n_files - 1 →
      ∃ s', goNext env s = .ok s' ∧
        s'.current_index = s.current_index ∧
        s'.var_check = "All files are checked!" ∧
        s'.var_ID = "" ∧
        s'.volume_node = s.volume_node ∧
        s'.segmentation_node = s.segmentation_node) ∧
    (s.current_index ≠ s.n_files - 1 →
      ∀ s', goNext env s = .ok s' →
        s'.current_index = s.current_index + 1 ∧
        ∃ fp, s.image_files[(s.current_index + 1).toNat]? = some (some fp) ∧
          s'.volume_node = some fp ∧ s'.var_ID = fp.parentName) := by
  constructor
  · intro hlast
    have hcond : ¬((removeCurrentNodes s).current_index <
        (removeCurrentNodes s).n_files - 1) := by
      rw [removeCurrentNodes_current_index, removeCurrentNodes_n_files]
      omega
    refine ⟨{ removeCurrentNodes s with
              var_check := "All files are checked!", var_ID := "" },
            ?_, rfl, rfl, rfl, rfl, rfl⟩
    simp only [goNext]
    rw [if_neg hcond]
  · intro hne s' hok
    have hcond : (removeCurrentNodes s).current_index <
        (removeCurrentNodes s).n_files - 1 := by
      rw [removeCurrentNodes_current_index, removeCurrentNodes_n_files]
      omega
    simp only [goNext] at hok
    rw [if_pos hcond] at hok
    split at hok
    · exact absurd hok (by simp)
    · next s'' hload =>
      rw [Except.ok.injEq] at hok
      subst hok
      obtain ⟨hidx, -, -, -, fp, hfp, hvol, hid⟩ := load_files_ok _ _ _ hload
      refine ⟨by simpa [resetUIElements_current_index] using hidx, fp, ?_, ?_, ?_⟩
      · exact hfp
      · simpa [resetUIElements] using hvol
      · simpa [resetUIElements] using hid

/-- Witness for C3 at a one-case root: the single case is the last one, so
`goNext` displays the terminal state and keeps the cursor at 0. -/
theorem C3_advance_cases_witness :
    ∃ s', goNext (fun _ => [])
        { initState with
          n_files := 1
          image_files := [some ⟨"case1", "image.nii"⟩]
          segmentation_files := [none] } = .ok s' ∧
      s'.current_index = 0 ∧
      s'.var_check = "All files are checked!" ∧
      s'.var_ID = "" ∧
      s'.volume_node = none ∧
      s'.segmentation_node = none := by
  obtain ⟨s', hok, hidx, hchk, hid, hvol, hseg⟩ :=
    (C3_advance_cases (fun _ => [])
      { initState with
        n_files := 1
        image_files := [some ⟨"case1", "image.nii"⟩]
        segmentation_files := [none] }
      (by decide) (by decide)).1 (by decide)
  exact ⟨s', hok, hidx, hchk, hid, hvol, hseg⟩

/-- C9: `goPrevious` at the first case is a complete no-op — the returned
state is the input state, so the cursor, case lists, status labels and bound
scene nodes are all untouched; at any later case a completed `goPrevious`
moves the cursor back by exactly one and loads that case's image. -/
theorem C9_retreat_cases (env : CasePath → List String) (s : WidgetState) :
    (s.current_index = 0 → goPrevious env s = .ok s) ∧
    (0 < s.current_index →
      ∀ s', goPrevious env s = .ok s' →
        s'.current_index = s.current_index - 1 ∧
        ∃ fp, s.image_files[(s.current_index - 1).toNat]? = some (some fp) ∧
          s'.volume_node = some fp ∧ s'.var_ID = fp.parentName) := by
  constructor
  · intro h0
    simp only [goPrevious]
    rw [if_neg (by omega)]
  · intro hpos s' hok
    simp only [goPrevious] at hok
    rw [if_pos (by omega)] at hok
    split at hok
    · exact absurd hok (by simp)
    · next s'' hload =>
      rw [Except.ok.injEq] at hok
      subst hok
      obtain ⟨hidx, -, -, -, fp, hfp, hvol, hid⟩ := load_files_ok _ _ _ hload
      refine ⟨by simpa [resetUIElements_current_index] using hidx, fp, ?_, ?_, ?_⟩
      · exact hfp
      · simpa [resetUIElements] using hvol
      · simpa [resetUIElements] using hid

/-- Witness for C9: at cursor 0 the previous-button handler returns the
state unchanged. -/
theorem C9_retreat_cases_witness :
    goPrevious (fun _ => [])
        { initState with
          n_files := 2
          image_files := [some ⟨"a", "image.nii"⟩, some ⟨"b", "image.nii"⟩]
          segmentation_files := [none, none] } =
      .ok { initState with
            n_files := 2
            image_files := [some ⟨"a", "image.nii"⟩, some ⟨"b", "image.nii"⟩]
            segmentation_files := [none, none] } :=
  (C9_retreat_cases (fun _ => []) _).1 rfl

/-- C2: A completed save-and-next confirmation performs, in order: the
segmentation write to the fixed sibling path
`<case folder>/segmentation.seg.nrrd` (overwriting that path in place — the
store gains no new path when it already holds one, so a second save for the
same case rewrites the same file), then the append of exactly the one row
`(case folder name, operator comment)` to the annotation CSV, and finally
the advance; and it completes exactly when the advance does. -/
theorem C2_save_then_append_then_advance (env : CasePath → List String)
    (w : World) (img : CasePath) (node : SegNode)
    (h1 : w.ws.image_files[w.ws.current_index.toNat]? = some (some img))
    (h2 : w.ws.segmentation_node = some node) :
    ((∃ ws', goNext env w.ws = .ok ws') →
      ∃ r, onSaveNextClicked env w = .ok r) ∧
    (∀ r, onSaveNextClicked env w = .ok r →
      r.2 = [.saveSeg ⟨img.parentName, "segmentation.seg.nrrd"⟩,
             .appendCsv img.parentName w.ws.var_comment,
             .advance] ∧
      readSegFile r.1.segStore ⟨img.parentName, "segmentation.seg.nrrd"⟩ =
        some node.names ∧
      (∀ q, q ≠ (⟨img.parentName, "segmentation.seg.nrrd"⟩ : CasePath) →
        readSegFile r.1.segStore q = readSegFile w.segStore q) ∧
      segFilePaths r.1.segStore =
        (if (segFilePaths w.segStore).contains
            (⟨img.parentName, "segmentation.seg.nrrd"⟩ : CasePath) then
          segFilePaths w.segStore
        else segFilePaths w.segStore ++
          [⟨img.parentName, "segmentation.seg.nrrd"⟩]) ∧
      r.1.csvFile =
        some (append_to_csv w.csvFile img.parentName w.ws.var_comment) ∧
      goNext env w.ws = .ok r.1.ws) := by
  constructor
  · rintro ⟨ws', hnext⟩
    refine ⟨(⟨ws',
              some (append_to_csv w.csvFile img.parentName w.ws.var_comment),
              writeSegFile w.segStore ⟨img.parentName, "segmentation.seg.nrrd"⟩
                node.names⟩,
             [.saveSeg ⟨img.parentName, "segmentation.seg.nrrd"⟩,
              .appendCsv img.parentName w.ws.var_comment, .advance]), ?_⟩
    simp only [onSaveNextClicked, h1, h2, hnext]
  · intro r hok
    simp only [onSaveNextClicked, h1, h2] at hok
    split at hok
    · exact absurd hok (by simp)
    · next ws' hnext =>
      rw [Except.ok.injEq] at hok
      subst hok
      refine ⟨rfl, ?_, ?_, ?_, rfl, hnext⟩
      · exact readSegFile_write_same _ _ _
      · intro q hq
        exact readSegFile_write_other _ _ _ _ hq
      · exact segFilePaths_write _ _ _

/-- Witness for C2 at a one-case world: the advance succeeds (it shows the
terminal state), so the save completes with the three effects in order and
the CSV gains the row for folder `case1`. -/
theorem C2_save_then_append_then_advance_witness :
    ∃ r, onSaveNextClicked (fun _ => [])
        ⟨{ initState with
           n_files := 1
           image_files := [some ⟨"case1", "image.nii"⟩]
           segmentation_files := [none]
           segmentation_node := some ⟨["Prostate", "Fascia"], fun _ => true⟩
           var_comment := "looks fine" },
         none, []⟩ = .ok r ∧
      r.2 = [.saveSeg ⟨"case1", "segmentation.seg.nrrd"⟩,
             .appendCsv "case1" "looks fine",
             .advance] ∧
      r.1.csvFile = some [.header, .row "case1" "looks fine"] ∧
      readSegFile r.1.segStore ⟨"case1", "segmentation.seg.nrrd"⟩ =
        some ["Prostate", "Fascia"] := by
  have h := C2_save_then_append_then_advance (fun _ => [])
    ⟨{ initState with
       n_files := 1
       image_files := [some ⟨"case1", "image.nii"⟩]
       segmentation_files := [none]
       segmentation_node := some ⟨["Prostate", "Fascia"], fun _ => true⟩
       var_comment := "looks fine" },
     none, []⟩
    ⟨"case1", "image.nii"⟩ ⟨["Prostate", "Fascia"], fun _ => true⟩ rfl rfl
  obtain ⟨r, hok⟩ := h.1 ⟨_, rfl⟩
  obtain ⟨heffs, hread, -, -, hcsv, -⟩ := h.2 r hok
  exact ⟨r, hok, heffs, by rw [hcsv]; rfl, hread⟩

/-- C1: Discovery over a root produces exactly one case per immediate
subdirectory whose folder name is not in the annotation table's patientID
column — those and no others are excluded — with each case's image and
segmentation entries scanned from its own folder; with no annotation table
on disk nothing is excluded and discovery completes on all subdirectories. -/
theorem C1_discovery_excludes_exactly_annotated (root : List FSEntry)
    (csv : Option (List CSVLine)) :
    (discoverLoop (annotatedFiles csv) root (0, [], [])).1 =
      ((rootDirs root).filter
        (fun p => decide (p.1 ∉ annotatedFiles csv))).length ∧
    (discoverLoop (annotatedFiles csv) root (0, [], [])).2.1 =
      ((rootDirs root).filter (fun p => decide (p.1 ∉ annotatedFiles csv))).map
        (fun p => (scanCaseFolder p.1 p.2 none none).1) ∧
    (discoverLoop (annotatedFiles csv) root (0, [], [])).2.2 =
      ((rootDirs root).filter (fun p => decide (p.1 ∉ annotatedFiles csv))).map
        (fun p => (scanCaseFolder p.1 p.2 none none).2) ∧
    (csv = none →
      (rootDirs root).filter (fun p => decide (p.1 ∉ annotatedFiles csv)) =
        rootDirs root) := by
  have hfilter : keptDirs (annotatedFiles csv) root =
      (rootDirs root).filter (fun p => decide (p.1 ∉ annotatedFiles csv)) := by
    unfold keptDirs
    apply List.filter_congr
    intro p _
    simp
  rw [discoverLoop_eq, hfilter]
  refine ⟨by push_cast; ring, by simp, by simp, ?_⟩
  rintro rfl
  apply List.filter_eq_self.2
  intro p _
  simp [annotatedFiles]

/-- Witness for C1: with no annotation table, both subdirectories of the
root become cases and the stray file is ignored. -/
theorem C1_discovery_excludes_exactly_annotated_witness :
    (discoverLoop (annotatedFiles none)
      [FSEntry.dir "a" [], FSEntry.dir "b" [FSEntry.file "image.nii"],
       FSEntry.file "stray.txt"] (0, [], [])).1 = 2 ∧
    (discoverLoop (annotatedFiles none)
      [FSEntry.dir "a" [], FSEntry.dir "b" [FSEntry.file "image.nii"],
       FSEntry.file "stray.txt"] (0, [], [])).2.1 =
      [none, some ⟨"b", "image.nii"⟩] := by
  have h := C1_discovery_excludes_exactly_annotated
    [FSEntry.dir "a" [], FSEntry.dir "b" [FSEntry.file "image.nii"],
     FSEntry.file "stray.txt"] none
  have hall := h.2.2.2 rfl
  constructor
  · rw [h.1, hall]; rfl
  · rw [h.2.1, hall]; rfl

/-- C7 counterexample: the discovery scan does NOT recognize `IMAGE.nii` as
the case's image file — the `"image" in file.name` test never lowercases,
so the claimed case-insensitive image recognition fails. -/
theorem C7_counterexample_uppercase_image :
    (scanCaseFolder "p1" [FSEntry.file "IMAGE.nii"] none none).1 = none ∧
    strContains "IMAGE.nii" "image" = false := by decide

/-- C7 amended: segmentation recognition is case-insensitive (it tests the
lowercased file name, so `SEGMENTATION.nrrd` is recognized), but image
recognition is case-sensitive — a file is recorded as the image exactly when
its name contains the literal lowercase substring `image`, and `IMAGE.nii`
is not recognized. -/
theorem C7_amended_case_sensitivity (c fname : String) (img seg : Option CasePath) :
    ((scanCaseFolder c [FSEntry.file fname] img seg).1 ≠ img →
      strContains fname "image" = true) ∧
    (strContains fname "image" = true →
      (scanCaseFolder c [FSEntry.file fname] img seg).1 = some ⟨c, fname⟩) ∧
    (strContains fname "image" = false →
     strContains (strLower fname) "segmentation" = true →
      (scanCaseFolder c [FSEntry.file fname] img seg).2 = some ⟨c, fname⟩) ∧
    (scanCaseFolder c [FSEntry.file "SEGMENTATION.nrrd"] img seg).2 =
      some ⟨c, "SEGMENTATION.nrrd"⟩ ∧
    (scanCaseFolder c [FSEntry.file "IMAGE.nii"] img seg).1 = img := by
  refine ⟨?_, ?_, ?_, ?_, ?_⟩
  · intro hne
    by_cases hi : strContains fname "image" = true
    · exact hi
    · rw [Bool.not_eq_true] at hi
      exfalso
      apply hne
      simp only [scanCaseFolder, hi, Bool.false_eq_true, if_false]
      split <;> rfl
  · intro hi
    simp [scanCaseFolder, hi]
  · intro hi hs
    simp [scanCaseFolder, hi, hs]
  · have hi : strContains "SEGMENTATION.nrrd" "image" = false := by decide
    have hs : strContains (strLower "SEGMENTATION.nrrd") "segmentation" = true := by
      decide
    simp [scanCaseFolder, hi, hs]
  · have hi : strContains "IMAGE.nii" "image" = false := by decide
    have hs : strContains (strLower "IMAGE.nii") "segmentation" = false := by decide
    simp [scanCaseFolder, hi, hs]

/-- Witness for C7's amended statement: a lowercase `image` substring is
recognized. -/
theorem C7_amended_case_sensitivity_witness :
    (scanCaseFolder "p1" [FSEntry.file "my_image.nii"] none none).1 =
      some ⟨"p1", "my_image.nii"⟩ :=
  (C7_amended_case_sensitivity "p1" "my_image.nii" none none).2.1 (by decide)

/-- If no file in the folder contains the literal substring `image`, the
scan records no image file, whatever segmentation accumulator it carries. -/
theorem scanCaseFolder_no_image (c : String) (entries : List FSEntry)
    (h : ∀ f, FSEntry.file f ∈ entries → strContains f "image" = false) :
    ∀ seg, (scanCaseFolder c entries none seg).1 = none := by
  induction entries with
  | nil => intro seg; rfl
  | cons e rest ih =>
    intro seg
    have hrest : ∀ f, FSEntry.file f ∈ rest → strContains f "image" = false :=
      fun f hf => h f (List.mem_cons_of_mem _ hf)
    cases e with
    | dir n es => exact ih hrest seg
    | file fname =>
      have hf : strContains fname "image" = false := h fname (by simp)
      simp only [scanCaseFolder, hf, Bool.false_eq_true, if_false]
      split
      · exact ih hrest _
      · exact ih hrest seg

/-- C10: An immediate subdirectory that is not annotated becomes a case and
is counted even when it holds no file with `image` in its name: its image
entry is recorded as absent, and loading that case then hands the absent
path to the volume loader (`loadVolume(None)` fails) instead of the folder
having been skipped or rejected at discovery time. -/
theorem C10_missing_image_still_discovered (csv : Option (List CSVLine))
    (root : List FSEntry) (name : String) (entries : List FSEntry)
    (hmem : (name, entries) ∈ rootDirs root)
    (hnot : name ∉ annotatedFiles csv)
    (hnoimg : ∀ f, FSEntry.file f ∈ entries → strContains f "image" = false) :
    ∃ i : Nat,
      (discoverLoop (annotatedFiles csv) root (0, [], [])).2.1[i]? = some none ∧
      (i : Int) < (discoverLoop (annotatedFiles csv) root (0, [], [])).1 ∧
      ∀ (env : CasePath → List String) (s : WidgetState),
        s.image_files = (discoverLoop (annotatedFiles csv) root (0, [], [])).2.1 →
        s.current_index = (i : Int) →
        load_files env s = .error .noImagePath := by
  have hkept : (name, entries) ∈ keptDirs (annotatedFiles csv) root := by
    refine List.mem_filter.2 ⟨hmem, ?_⟩
    simp [hnot]
  obtain ⟨i, hi⟩ := List.mem_iff_getElem?.1 hkept
  refine ⟨i, ?_, ?_, ?_⟩
  · rw [discoverLoop_eq]
    simp only [List.nil_append]
    rw [List.getElem?_map, hi]
    simp [scanCaseFolder_no_image name entries hnoimg]
  · rw [discoverLoop_eq]
    have : i < (keptDirs (annotatedFiles csv) root).length :=
      (List.getElem?_eq_some.1 hi).1
    simp only [zero_add]
    omega
  · intro env s himgs hidx
    have : s.image_files[s.current_index.toNat]? = some none := by
      rw [himgs, hidx, Int.toNat_natCast, discoverLoop_eq]
      simp only [List.nil_append]
      rw [List.getElem?_map, hi]
      simp [scanCaseFolder_no_image name entries hnoimg]
    simp only [load_files, this]

/-- Witness for C10: a folder holding only a segmentation file is still
discovered as a case, with no image recorded, and loading it fails on the
absent image path. -/
theorem C10_missing_image_still_discovered_witness :
    ∃ i : Nat,
      (discoverLoop (annotatedFiles none)
        [FSEntry.dir "noimg" [FSEntry.file "segmentation.nrrd"]]
        (0, [], [])).2.1[i]? = some none ∧
      (i : Int) < (discoverLoop (annotatedFiles none)
        [FSEntry.dir "noimg" [FSEntry.file "segmentation.nrrd"]]
        (0, [], [])).1 ∧
      ∀ (env : CasePath → List String) (s : WidgetState),
        s.image_files = (discoverLoop (annotatedFiles none)
          [FSEntry.dir "noimg" [FSEntry.file "segmentation.nrrd"]]
          (0, [], [])).2.1 →
        s.current_index = (i : Int) →
        load_files env s = .error .noImagePath :=
  C10_missing_image_still_discovered none
    [FSEntry.dir "noimg" [FSEntry.file "segmentation.nrrd"]]
    "noimg" [FSEntry.file "segmentation.nrrd"]
    (List.mem_singleton.2 rfl) (by decide)
    (by
      intro f hf
      rw [List.mem_singleton] at hf
      injection hf with h
      subst h
      decide)

/-- A completed save hands back the widget state produced by `goNext`. -/
theorem onSaveNextClicked_ok_ws (env : CasePath → List String) (w : World)
    (r : World × List Effect) (h : onSaveNextClicked env w = .ok r) :
    goNext env w.ws = .ok r.1.ws := by
  simp only [onSaveNextClicked] at h
  split at h
  · exact absurd h (by simp)
  · exact absurd h (by simp)
  · next img himg =>
    split at h
    · exact absurd h (by simp)
    · next node hnode =>
      split at h
      · exact absurd h (by simp)
      · next ws' hnext =>
        rw [Except.ok.injEq] at h
        subst h
        exact hnext

/-- C8: On every reachable world the navigation cursor is a non-negative
integer that stays below the case count whenever the count is non-zero, and
from any state a completed advance or retreat moves the cursor by exactly
one or leaves it unchanged — so no sequence of discovery, advance and
retreat actions drives it out of range. -/
theorem C8_cursor_always_in_range (env : CasePath → List String) (w : World)
    (h : Reachable env w) :
    (0 ≤ w.ws.current_index ∧
      (w.ws.n_files ≠ 0 → w.ws.current_index < w.ws.n_files)) ∧
    (∀ s', goNext env w.ws = .ok s' →
      s'.current_index = w.ws.current_index + 1 ∨
      s'.current_index = w.ws.current_index) ∧
    (∀ s', goPrevious env w.ws = .ok s' →
      s'.current_index = w.ws.current_index - 1 ∨
      s'.current_index = w.ws.current_index) := by
  refine ⟨?_, ?_, ?_⟩
  · induction h with
    | init csv store => exact ⟨le_refl 0, fun hne => absurd rfl hne⟩
    | step hr hstep ih =>
      rename_i w₁ w₂
      cases hstep with
      | discover root csv w₁ ws' hok =>
        obtain ⟨hidx, -, hnn⟩ := onAtlasDirectoryChanged_ok _ _ _ _ _ hok
        dsimp only at *
        exact ⟨by omega, fun hne => by omega⟩
      | next w₁ ws' hok =>
        obtain ⟨hn, hcases⟩ := goNext_ok_cases _ _ _ hok
        obtain ⟨ih0, ihlt⟩ := ih
        dsimp only at *
        rcases hcases with ⟨hlt, heq⟩ | ⟨hge, heq⟩
        · exact ⟨by omega, fun hne => by omega⟩
        · refine ⟨by omega, fun hne => ?_⟩
          rw [hn] at hne
          have := ihlt hne
          omega
      | previous w₁ ws' hok =>
        obtain ⟨hn, hcases⟩ := goPrevious_ok_cases _ _ _ hok
        obtain ⟨ih0, ihlt⟩ := ih
        dsimp only at *
        rcases hcases with ⟨hpos, heq⟩ | ⟨hge, heq⟩
        · refine ⟨by omega, fun hne => ?_⟩
          rw [hn] at hne
          have := ihlt hne
          omega
        · refine ⟨by omega, fun hne => ?_⟩
          rw [hn] at hne
          have := ihlt hne
          omega
      | save w₁ w₂ effs hok =>
        have hnext := onSaveNextClicked_ok_ws _ _ _ hok
        obtain ⟨hn, hcases⟩ := goNext_ok_cases _ _ _ hnext
        obtain ⟨ih0, ihlt⟩ := ih
        dsimp only at *
        rcases hcases with ⟨hlt, heq⟩ | ⟨hge, heq⟩
        · exact ⟨by omega, fun hne => by omega⟩
        · refine ⟨by omega, fun hne => ?_⟩
          rw [hn] at hne
          have := ihlt hne
          omega
  · intro s' hok
    obtain ⟨-, hcases⟩ := goNext_ok_cases _ _ _ hok
    rcases hcases with ⟨-, heq⟩ | ⟨-, heq⟩
    · exact .inl heq
    · exact .inr heq
  · intro s' hok
    obtain ⟨-, hcases⟩ := goPrevious_ok_cases _ _ _ hok
    rcases hcases with ⟨-, heq⟩ | ⟨-, heq⟩
    · exact .inl heq
    · exact .inr heq

/-- Witness for C8 at the start-up world. -/
theorem C8_cursor_always_in_range_witness :
    0 ≤ (⟨initState, none, []⟩ : World).ws.current_index ∧
    ((⟨initState, none, []⟩ : World).ws.n_files ≠ 0 →
      (⟨initState, none, []⟩ : World).ws.current_index <
        (⟨initState, none, []⟩ : World).ws.n_files) :=
  (C8_cursor_always_in_range (fun _ => []) ⟨initState, none, []⟩
    (Reachable.init none [])).1

end ProstaSeg
